import Mathlib

/-!
Shallow embedding of the OCR2VRF coordinator
(`core/services/ocr2/plugins/ocr2vrf/coordinator/coordinator.go`) and proofs
about its eligibility filtering, log classification, report assembly and
transmission tracking.

Machine integers are modelled as `Nat`/`Int` with explicit `% 2^64` /
`% 2^32` at the places where the Go code converts or overflows.
-/

namespace Coord

/-- 2^64, the modulus of Go's `uint64` arithmetic. -/
def U64 : Nat := 2 ^ 64

/-- 2^32, the modulus of Go's `uint32` arithmetic. -/
def U32 : Nat := 2 ^ 32

/-- Go's `(*big.Int).Int64()` on a non-negative big integer: the low 64 bits
interpreted as a two's-complement `int64`. -/
def int64ofBig (n : Nat) : Int :=
  if n % U64 < 2 ^ 63 then ((n % U64 : Nat) : Int) else ((n % U64 : Nat) : Int) - (U64 : Int)

/-- Go's `(*big.Int).Uint64()` on a non-negative big integer: the low 64 bits. -/
def uint64ofBig (n : Nat) : Nat := n % U64

/-- Go's conversion `uint64(x)` of an `int64` value `x`: reduction mod 2^64. -/
def toUint64 (x : Int) : Nat := (x % (U64 : Int)).toNat

/-- Go's conversion `uint32(n)` of a `uint64` value: reduction mod 2^32. -/
def toUint32 (n : Nat) : Nat := n % U32

/-- `isBlockEligible` from coordinator.go: returns true when
`confDelay.Int64() < currentHeight` and the `uint64` sum
`nextBeaconOutputHeight + confDelay.Uint64()` is below `uint64(currentHeight)`.
The addition is Go `uint64` addition, i.e. it wraps mod 2^64. -/
def isBlockEligible (nextBeaconOutputHeight : Nat) (confDelay : Nat) (currentHeight : Int) : Bool :=
  decide (int64ofBig confDelay < currentHeight) &&
    decide ((nextBeaconOutputHeight + uint64ofBig confDelay) % U64 < toUint64 currentHeight)

theorem toUint64_of_nonneg {x : Int} (h0 : 0 ≤ x) (h1 : x < (U64 : Int)) :
    toUint64 x = x.toNat := by
  unfold toUint64
  rw [Int.emod_eq_of_lt h0 h1]

theorem int64ofBig_small {n : Nat} (h : n < 2 ^ 63) : int64ofBig n = (n : Int) := by
  have hn : n % U64 = n := Nat.mod_eq_of_lt (lt_trans h (by norm_num [U64]))
  unfold int64ofBig
  rw [hn, if_pos h]

/-- C4 counterexample input: with `nextBeaconOutputHeight = 2^64 - 1`,
`confDelay = 2`, `currentHeight = 5`, the code's wrapping `uint64` addition
makes the block eligible, while the claim's exact-arithmetic condition
`nextOutputHeight + confirmationDelay < currentHeight` is false. -/
theorem isBlockEligible_claim_counterexample :
    isBlockEligible (2 ^ 64 - 1) 2 5 = true ∧
      ¬(((2 ^ 64 - 1 : Nat) : Int) + 2 < 5) := by
  constructor
  · decide
  · norm_num

/-- C4 (amended): for in-range inputs (`nextBeaconOutputHeight` a `uint64`,
`confirmationDelay` a `uint32`), `isBlockEligible` returns true iff
`confirmationDelay < currentHeight` and the wrapped sum
`(nextBeaconOutputHeight + confirmationDelay) mod 2^64` is less than
`uint64(currentHeight)`. -/
theorem isBlockEligible_spec (h d : Nat) (cur : Int)
    (_hh : h < U64) (hd : d < U32) :
    isBlockEligible h d cur = true ↔
      ((d : Int) < cur ∧ (h + d) % U64 < toUint64 cur) := by
  have hd63 : d < 2 ^ 63 := lt_trans hd (by norm_num [U32])
  have hdU : uint64ofBig d = d := by
    unfold uint64ofBig U64
    exact Nat.mod_eq_of_lt (lt_trans hd63 (by norm_num))
  unfold isBlockEligible
  rw [int64ofBig_small hd63, hdU]
  simp

/-- Witness for `isBlockEligible_spec` at `h = 90`, `d = 3`, `cur = 100`. -/
theorem isBlockEligible_spec_witness :
    (90 < U64 ∧ 3 < U32) ∧
      (isBlockEligible 90 3 100 = true ↔
        ((3 : Int) < 100 ∧ (90 + 3) % U64 < toUint64 100)) :=
  ⟨by constructor <;> norm_num [U64, U32], isBlockEligible_spec 90 3 100 (by norm_num [U64]) (by norm_num [U32])⟩

/-- C6 counterexample input: at `nextBeaconOutputHeight = 2^64 - 1`,
`confDelay = 2`, the height `5` satisfies `5 ≤ nextOutputHeight + confDelay`
(exact arithmetic), yet the predicate returns true, refuting the claimed
monotone shape for this fixed pair. -/
theorem isBlockEligible_monotone_counterexample :
    isBlockEligible (2 ^ 64 - 1) 2 5 = true ∧
      ((5 : Int) ≤ ((2 ^ 64 - 1 : Nat) : Int) + 2) := by
  constructor
  · decide
  · norm_num

/-- C6 (amended): for a fixed pair with no `uint64` overflow
(`nextBeaconOutputHeight + confirmationDelay < 2^63`), the predicate is false
for every `currentHeight ≤ nextBeaconOutputHeight + confirmationDelay` and
true for every strictly greater `currentHeight` in `int64` range. -/
theorem isBlockEligible_monotone (h d : Nat) (hno : h + d < 2 ^ 63) :
    (∀ cur : Int, cur ≤ ((h + d : Nat) : Int) → isBlockEligible h d cur = false) ∧
      (∀ cur : Int, ((h + d : Nat) : Int) < cur → cur < 2 ^ 63 → isBlockEligible h d cur = true) := by
  have hd63 : d < 2 ^ 63 := lt_of_le_of_lt (Nat.le_add_left d h) hno
  have hdU : uint64ofBig d = d := by
    unfold uint64ofBig U64
    exact Nat.mod_eq_of_lt (lt_trans hd63 (by norm_num))
  have hsum : (h + d) % U64 = h + d := by
    unfold U64
    exact Nat.mod_eq_of_lt (lt_trans hno (by norm_num))
  constructor
  · intro cur hcur
    unfold isBlockEligible
    rw [int64ofBig_small hd63, hdU, hsum]
    by_cases hdc : (d : Int) < cur
    · have hcur0 : (0 : Int) < cur := lt_of_le_of_lt (Int.ofNat_nonneg d) hdc
      have hcurU : cur < (U64 : Int) := by
        refine lt_of_le_of_lt hcur ?_
        have hx : ((h + d : Nat) : Int) < ((2 ^ 63 : Nat) : Int) := by exact_mod_cast hno
        refine lt_of_lt_of_le hx ?_
        norm_num [U64]
      rw [toUint64_of_nonneg (le_of_lt hcur0) hcurU]
      have hle : cur.toNat ≤ h + d := by
        have hx : (cur.toNat : Int) ≤ ((h + d : Nat) : Int) := by
          rw [Int.toNat_of_nonneg (le_of_lt hcur0)]
          exact hcur
        exact_mod_cast hx
      have hnl : ¬ (h + d < cur.toNat) := Nat.not_lt.mpr hle
      simp [hdc, hnl]
    · simp [hdc]
  · intro cur hcur hcur63
    unfold isBlockEligible
    rw [int64ofBig_small hd63, hdU, hsum]
    have hcur0 : (0 : Int) ≤ cur := le_trans (Int.ofNat_nonneg (h + d)) (le_of_lt hcur)
    have hcurU : cur < (U64 : Int) := by
      refine lt_of_lt_of_le hcur63 ?_
      norm_num [U64]
    rw [toUint64_of_nonneg hcur0 hcurU]
    have hdlt : (d : Int) < cur := lt_of_le_of_lt (by exact_mod_cast Nat.le_add_left d h) hcur
    have hlt : h + d < cur.toNat := by
      have : ((h + d : Nat) : Int) < (cur.toNat : Int) := by
        rw [Int.toNat_of_nonneg hcur0]
        exact hcur
      exact_mod_cast this
    simp [hdlt, hlt]

/-- Witness for `isBlockEligible_monotone` at `h = 90`, `d = 3`. -/
theorem isBlockEligible_monotone_witness :
    (90 + 3 < 2 ^ 63) ∧ isBlockEligible 90 3 50 = false ∧ isBlockEligible 90 3 100 = true :=
  ⟨by norm_num,
   (isBlockEligible_monotone 90 3 (by norm_num)).1 50 (by norm_num),
   (isBlockEligible_monotone 90 3 (by norm_num)).2 100 (by norm_num) (by norm_num)⟩

/-! ### Cache keys and the dedup caches -/

/-- The `block` struct of coordinator.go, used to key the set of beacon
blocks scheduled for transmission. All three fields are unexported. -/
structure block where
  blockHash : Nat
  blockNumber : Nat
  confDelay : Nat
deriving DecidableEq, Repr

/-- The `callback` struct of coordinator.go, used to key the set of callback
requests scheduled for transmission. All three fields are unexported. -/
structure callback where
  blockHash : Nat
  blockNumber : Nat
  requestID : Nat
deriving DecidableEq, Repr

/-- `getCacheKey` from coordinator.go: `json.Marshal` the item and hash the
bytes with `common.BytesToHash`. Go's `json.Marshal` serializes only exported
struct fields; `block` and `callback` have none, so for every value of either
type it produces the two bytes of the empty JSON object and never fails (the
error branch of the Go function is dead for these types). `BytesToHash`
left-pads those two bytes (0x7b 0x7d) to 32 bytes, i.e. the value 0x7b7d. -/
def getCacheKey {α : Type} (_item : α) : Nat := 0x7b7d

/-- Modelled from the spec: the generic `BlockCache` ("DedupCache") type is
not part of the extracted sources (only its call sites in coordinator.go
are). Per §3/§4.3 it maps a canonical hash to the item plus the chain height
at which it was inserted, with a fixed eviction window. -/
structure BlockCache (α : Type) where
  evictionWindow : Int
  entries : List (Nat × α × Int)
deriving DecidableEq, Repr

/-- Modelled from the spec: `NewBlockCache` builds an empty cache with the
given eviction window. -/
def NewBlockCache (α : Type) (window : Int) : BlockCache α := ⟨window, []⟩

namespace BlockCache

/-- Modelled from the spec: `GetItem` is a point lookup by canonical hash,
returning the item or NotFound (`none`). -/
def GetItem {α : Type} (c : BlockCache α) (key : Nat) : Option α :=
  (c.entries.find? (fun e => e.1 = key)).map (fun e => e.2.1)

/-- Modelled from the spec: `AddItem` inserts or overwrites unconditionally,
recording the insertion height; it performs no presence check (the caller is
responsible for the conflict check). -/
def AddItem {α : Type} (c : BlockCache α) (item : α) (key : Nat) (height : Int) : BlockCache α :=
  { c with entries := (key, item, height) :: c.entries.filter (fun e => ¬ e.1 = key) }

/-- Modelled from the spec: `EvictExpiredItems` removes every entry whose
`insertedAtHeight + evictionWindow` is below the given current height. -/
def EvictExpiredItems {α : Type} (c : BlockCache α) (currentHeight : Int) : BlockCache α :=
  { c with entries := c.entries.filter (fun e => ¬ (e.2.2 + c.evictionWindow < currentHeight)) }

@[simp]
theorem getItem_addItem {α : Type} (c : BlockCache α) (x : α) (k : Nat) (h : Int) :
    (c.AddItem x k h).GetItem k = some x := by
  simp [GetItem, AddItem, List.find?]

theorem evictionWindow_addItem {α : Type} (c : BlockCache α) (x : α) (k : Nat) (h : Int) :
    (c.AddItem x k h).evictionWindow = c.evictionWindow := rfl

end BlockCache

/-- The mutable coordinator state guarded by `transmittedMu`: the two dedup
caches `toBeTransmittedBlocks` and `toBeTransmittedCallbacks`. -/
structure CoordinatorState where
  toBeTransmittedBlocks : BlockCache block
  toBeTransmittedCallbacks : BlockCache callback
deriving DecidableEq, Repr

/-! ### Report types (from ocr2vrf types, as used by coordinator.go) -/

/-- `ocr2vrftypes.AbstractCostedCallbackRequest`, with the fields
coordinator.go reads and writes. -/
structure AbstractCostedCallbackRequest where
  beaconHeight : Nat
  confirmationDelay : Nat
  subscriptionID : Nat
  price : Int
  requestID : Nat
  numWords : Nat
  requester : Nat
  arguments : List Nat
  gasAllowance : Int
  requestHeight : Nat
  requestBlockHash : Nat
deriving DecidableEq, Repr

/-- `ocr2vrftypes.AbstractVRFOutput`: one output of a report, optionally
carrying a VRF proof and the callbacks it serves. -/
structure AbstractVRFOutput where
  blockHeight : Nat
  confirmationDelay : Nat
  vrfProof : List Nat
  callbacks : List AbstractCostedCallbackRequest
deriving DecidableEq, Repr

/-- `ocr2vrftypes.AbstractReport`: the sequence of outputs of a report. -/
structure AbstractReport where
  outputs : List AbstractVRFOutput
deriving DecidableEq, Repr

/-- The `block` value `ReportWillBeTransmitted` builds for an output
(`blockToStore`); the hash field is left at its zero value. -/
def blockOfOutput (o : AbstractVRFOutput) : block :=
  ⟨0, o.blockHeight, o.confirmationDelay⟩

/-- The `callback` value `ReportWillBeTransmitted` builds for a callback
(`callbackToStore`); the hash field is left at its zero value. -/
def callbackOfReport (cb : AbstractCostedCallbackRequest) : callback :=
  ⟨0, cb.beaconHeight, cb.requestID⟩

/-- The errors `ReportWillBeTransmitted` can return: an in-flight conflict on
a block key, an in-flight conflict on a callback key, or a failure of the
`LatestBlock` query. (The `getCacheKey` error branches are dead, see
`getCacheKey`.) -/
inductive RWBTError where
  | blockInFlight (b : block)
  | callbackInFlight (cb : callback)
  | latestBlockFailed
deriving DecidableEq, Repr

/-- True exactly for the two "already in-flight" conflict errors. -/
def RWBTError.isInFlight : RWBTError → Bool
  | .blockInFlight _ => true
  | .callbackInFlight _ => true
  | .latestBlockFailed => false

/-- The callback loop of `ReportWillBeTransmitted` phase 1: check each
callback of one output against the callback cache, failing on the first
conflict, and collect the `callbackToStore` values otherwise. -/
def checkCallbacks (cc : BlockCache callback) :
    List AbstractCostedCallbackRequest → Except RWBTError (List callback)
  | [] => .ok []
  | cb :: rest =>
    match cc.GetItem (getCacheKey (callbackOfReport cb)) with
    | some _ => .error (.callbackInFlight (callbackOfReport cb))
    | none =>
      match checkCallbacks cc rest with
      | .error e => .error e
      | .ok l => .ok (callbackOfReport cb :: l)

/-- The output loop of `ReportWillBeTransmitted` phase 1: for every output
with a non-empty proof check its block key, and for every callback check its
callback key, against the caches as they were at entry (no insertion happens
here); collect `blocksRequested` and `callbacksRequested`. -/
def collectReportKeys (bc : BlockCache block) (cc : BlockCache callback) :
    List AbstractVRFOutput → Except RWBTError (List block × List callback)
  | [] => .ok ([], [])
  | o :: rest =>
    if 0 < o.vrfProof.length then
      match bc.GetItem (getCacheKey (blockOfOutput o)) with
      | some _ => .error (.blockInFlight (blockOfOutput o))
      | none =>
        match checkCallbacks cc o.callbacks with
        | .error e => .error e
        | .ok cbs =>
          match collectReportKeys bc cc rest with
          | .error e => .error e
          | .ok (bs, cs) => .ok (blockOfOutput o :: bs, cbs ++ cs)
    else
      match checkCallbacks cc o.callbacks with
      | .error e => .error e
      | .ok cbs =>
        match collectReportKeys bc cc rest with
        | .error e => .error e
        | .ok (bs, cs) => .ok (bs, cbs ++ cs)

/-- `ReportWillBeTransmitted` from coordinator.go, with the `LatestBlock`
query of the log poller passed in as an environment value. It returns the
optional error together with the resulting cache state (the Go method
mutates the receiver; error paths leave the state as they found it because
all cache writes happen after all checks and after the `LatestBlock` call). -/
def ReportWillBeTransmitted (st : CoordinatorState) (report : AbstractReport)
    (latestBlock : Except Unit Int) : Option RWBTError × CoordinatorState :=
  match collectReportKeys st.toBeTransmittedBlocks st.toBeTransmittedCallbacks report.outputs with
  | .error e => (some e, st)
  | .ok (blocksRequested, callbacksRequested) =>
    match latestBlock with
    | .error _ => (some .latestBlockFailed, st)
    | .ok lb =>
      let bc := blocksRequested.foldl
        (fun c b => c.AddItem b (getCacheKey b) lb) st.toBeTransmittedBlocks
      let cc := callbacksRequested.foldl
        (fun c cb => c.AddItem cb (getCacheKey cb) lb) st.toBeTransmittedCallbacks
      (none, ⟨bc.EvictExpiredItems lb, cc.EvictExpiredItems lb⟩)

/-! ### C2: no cache mutation on any error -/

/-- Helper: every error exit of `ReportWillBeTransmitted` returns the input
cache state untouched. -/
theorem rwbt_error_state (st : CoordinatorState) (r : AbstractReport)
    (lb : Except Unit Int) (e : RWBTError) (st2 : CoordinatorState)
    (h : ReportWillBeTransmitted st r lb = (some e, st2)) : st2 = st := by
  unfold ReportWillBeTransmitted at h
  cases hc : collectReportKeys st.toBeTransmittedBlocks st.toBeTransmittedCallbacks r.outputs with
  | error e2 =>
    rw [hc] at h
    simp only [Prod.mk.injEq] at h
    exact h.2.symm
  | ok p =>
    rw [hc] at h
    obtain ⟨bs, cs⟩ := p
    cases lb with
    | error u =>
      simp only [Prod.mk.injEq] at h
      exact h.2.symm
    | ok n => simp at h

/-- C2: whenever `ReportWillBeTransmitted` returns an error (an in-flight
conflict on a block or callback key, or a `LatestBlock` failure), neither
dedup cache is mutated — the state returned alongside the error is the input
state, because every insertion is sequenced after every conflict check. -/
theorem rwbt_no_mutation_on_error (st : CoordinatorState) (r : AbstractReport)
    (lb : Except Unit Int) (e : RWBTError) (st2 : CoordinatorState)
    (h : ReportWillBeTransmitted st r lb = (some e, st2)) : st2 = st :=
  rwbt_error_state st r lb e st2 h

/-- Witness for `rwbt_no_mutation_on_error`: a report whose block key is
already in flight is rejected and the state is returned unchanged. -/
theorem rwbt_no_mutation_on_error_witness :
    ReportWillBeTransmitted
        ⟨⟨4, [(0x7b7d, ⟨0, 10, 1⟩, 50)]⟩, ⟨4, []⟩⟩
        ⟨[⟨10, 1, [1], []⟩]⟩ (.ok 100) =
      (some (.blockInFlight ⟨0, 10, 1⟩), ⟨⟨4, [(0x7b7d, ⟨0, 10, 1⟩, 50)]⟩, ⟨4, []⟩⟩) ∧
      (⟨⟨4, [(0x7b7d, ⟨0, 10, 1⟩, 50)]⟩, ⟨4, []⟩⟩ : CoordinatorState) =
        ⟨⟨4, [(0x7b7d, ⟨0, 10, 1⟩, 50)]⟩, ⟨4, []⟩⟩ :=
  ⟨by decide,
   rwbt_no_mutation_on_error ⟨⟨4, [(0x7b7d, ⟨0, 10, 1⟩, 50)]⟩, ⟨4, []⟩⟩
     ⟨[⟨10, 1, [1], []⟩]⟩ (.ok 100) (.blockInFlight ⟨0, 10, 1⟩)
     ⟨⟨4, [(0x7b7d, ⟨0, 10, 1⟩, 50)]⟩, ⟨4, []⟩⟩ (by decide)⟩

/-! ### C1: a block already handed to transmission is rejected -/

/-- Every error `checkCallbacks` produces is a callback in-flight conflict. -/
theorem checkCallbacks_error_isInFlight (cc : BlockCache callback)
    (l : List AbstractCostedCallbackRequest) (e : RWBTError)
    (h : checkCallbacks cc l = .error e) : e.isInFlight = true := by
  induction l with
  | nil => simp [checkCallbacks] at h
  | cons cb rest ih =>
    unfold checkCallbacks at h
    cases hg : cc.GetItem (getCacheKey (callbackOfReport cb)) with
    | some x =>
      rw [hg] at h
      have h2 : RWBTError.callbackInFlight (callbackOfReport cb) = e := by injection h
      subst h2
      rfl
    | none =>
      rw [hg] at h
      cases hr : checkCallbacks cc rest with
      | error e2 =>
        rw [hr] at h
        have h2 : e2 = e := by injection h
        exact ih (h2 ▸ hr)
      | ok l2 =>
        rw [hr] at h
        exact Except.noConfusion h

/-- A block key collected from an output with a non-empty proof ends up in
the `blocksRequested` list returned by phase 1. -/
theorem collect_ok_mem_blocks (bc : BlockCache block) (cc : BlockCache callback)
    (outs : List AbstractVRFOutput) (bs : List block) (cs : List callback)
    (h : collectReportKeys bc cc outs = .ok (bs, cs))
    (o : AbstractVRFOutput) (ho : o ∈ outs) (hp : o.vrfProof ≠ []) :
    blockOfOutput o ∈ bs := by
  induction outs generalizing bs cs with
  | nil => cases ho
  | cons o2 rest ih =>
    unfold collectReportKeys at h
    by_cases hlen : 0 < o2.vrfProof.length
    · rw [if_pos hlen] at h
      cases hg : bc.GetItem (getCacheKey (blockOfOutput o2)) with
      | some x => rw [hg] at h; exact Except.noConfusion h
      | none =>
        rw [hg] at h
        cases hcb : checkCallbacks cc o2.callbacks with
        | error e => rw [hcb] at h; exact Except.noConfusion h
        | ok cbs =>
          rw [hcb] at h
          cases hrec : collectReportKeys bc cc rest with
          | error e => rw [hrec] at h; exact Except.noConfusion h
          | ok p =>
            obtain ⟨bs2, cs2⟩ := p
            rw [hrec] at h
            have h2 : (blockOfOutput o2 :: bs2, cbs ++ cs2) = (bs, cs) := by injection h
            have hbs : blockOfOutput o2 :: bs2 = bs := congrArg Prod.fst h2
            rcases List.mem_cons.mp ho with rfl | hmem
            · rw [← hbs]; exact List.mem_cons_self _ _
            · rw [← hbs]; exact List.mem_cons_of_mem _ (ih bs2 cs2 hrec hmem)
    · rw [if_neg hlen] at h
      have ho2mem : o ∈ rest := by
        rcases List.mem_cons.mp ho with rfl | hmem
        · exact absurd (List.eq_nil_of_length_eq_zero (Nat.eq_zero_of_not_pos hlen)) hp
        · exact hmem
      cases hcb : checkCallbacks cc o2.callbacks with
      | error e => rw [hcb] at h; exact Except.noConfusion h
      | ok cbs =>
        rw [hcb] at h
        cases hrec : collectReportKeys bc cc rest with
        | error e => rw [hrec] at h; exact Except.noConfusion h
        | ok p =>
          obtain ⟨bs2, cs2⟩ := p
          rw [hrec] at h
          have h2 : (bs2, cbs ++ cs2) = (bs, cs) := by injection h
          have hbs : bs2 = bs := congrArg Prod.fst h2
          rw [← hbs]
          exact ih bs2 cs2 hrec ho2mem

/-- Folding `AddItem` preserves the eviction window. -/
theorem foldl_addItem_window (bs : List block) (c0 : BlockCache block) (n : Int) :
    (bs.foldl (fun c b => c.AddItem b (getCacheKey b) n) c0).evictionWindow
      = c0.evictionWindow := by
  induction bs generalizing c0 with
  | nil => rfl
  | cons b rest ih => simpa using ih (c0.AddItem b (getCacheKey b) n)

/-- After folding `AddItem` over a non-empty list, the (shared) cache key
maps to the last inserted block at the insertion height. -/
theorem foldl_addItem_entries (bs : List block) (c0 : BlockCache block) (n : Int)
    (hne : bs ≠ []) :
    ∃ x rest, (bs.foldl (fun c b => c.AddItem b (getCacheKey b) n) c0).entries
      = (0x7b7d, x, n) :: rest := by
  rcases (List.eq_nil_or_concat bs).resolve_left hne with ⟨l, b, rfl⟩
  rw [List.concat_eq_append, List.foldl_append]
  exact ⟨b, _, rfl⟩

/-- After a successful `ReportWillBeTransmitted` on a report containing an
output with a non-empty proof, the block cache still holds an entry for the
cache key of that output's block (the eviction pass at the same height keeps
entries just inserted whenever the eviction window is non-negative). -/
theorem rwbt_ok_block_present (st st' : CoordinatorState) (r : AbstractReport)
    (lb : Except Unit Int)
    (hok : ReportWillBeTransmitted st r lb = (none, st'))
    (o : AbstractVRFOutput) (ho : o ∈ r.outputs) (hp : o.vrfProof ≠ [])
    (hw : 0 ≤ st.toBeTransmittedBlocks.evictionWindow) :
    ∃ x, st'.toBeTransmittedBlocks.GetItem 0x7b7d = some x := by
  unfold ReportWillBeTransmitted at hok
  cases hc : collectReportKeys st.toBeTransmittedBlocks st.toBeTransmittedCallbacks r.outputs with
  | error e => rw [hc] at hok; simp at hok
  | ok p =>
    obtain ⟨bs, cs⟩ := p
    rw [hc] at hok
    cases lb with
    | error u => simp at hok
    | ok n =>
      simp only [Prod.mk.injEq] at hok
      have hmem : blockOfOutput o ∈ bs := collect_ok_mem_blocks _ _ _ _ _ hc o ho hp
      have hne : bs ≠ [] := fun hnil => by rw [hnil] at hmem; cases hmem
      obtain ⟨x, rest, hent⟩ := foldl_addItem_entries bs st.toBeTransmittedBlocks n hne
      have hwin : (bs.foldl (fun c b => c.AddItem b (getCacheKey b) n)
          st.toBeTransmittedBlocks).evictionWindow = st.toBeTransmittedBlocks.evictionWindow :=
        foldl_addItem_window bs st.toBeTransmittedBlocks n
      refine ⟨x, ?_⟩
      rw [← hok.2]
      simp only [BlockCache.GetItem, BlockCache.EvictExpiredItems, hent, hwin]
      have hkeep : ¬ (n + st.toBeTransmittedBlocks.evictionWindow < n) := by omega
      simp [List.filter, hkeep, List.find?]

/-- If the block cache already holds an entry for the shared cache key, then
phase 1 of `ReportWillBeTransmitted` fails with an in-flight conflict on any
report that contains an output with a non-empty proof. -/
theorem collect_fails_of_present (bc : BlockCache block) (cc : BlockCache callback)
    (outs : List AbstractVRFOutput) (x : block)
    (hbc : bc.GetItem 0x7b7d = some x)
    (o : AbstractVRFOutput) (ho : o ∈ outs) (hp : o.vrfProof ≠ []) :
    ∃ e, collectReportKeys bc cc outs = .error e ∧ e.isInFlight = true := by
  induction outs with
  | nil => cases ho
  | cons o2 rest ih =>
    unfold collectReportKeys
    by_cases hlen : 0 < o2.vrfProof.length
    · rw [if_pos hlen]
      have : bc.GetItem (getCacheKey (blockOfOutput o2)) = some x := hbc
      rw [this]
      exact ⟨.blockInFlight (blockOfOutput o2), rfl, rfl⟩
    · rw [if_neg hlen]
      have ho2mem : o ∈ rest := by
        rcases List.mem_cons.mp ho with rfl | hmem
        · exact absurd (List.eq_nil_of_length_eq_zero (Nat.eq_zero_of_not_pos hlen)) hp
        · exact hmem
      cases hcb : checkCallbacks cc o2.callbacks with
      | error e =>
        exact ⟨e, rfl, checkCallbacks_error_isInFlight cc o2.callbacks e hcb⟩
      | ok cbs =>
        obtain ⟨e, herr, hfl⟩ := ih ho2mem
        refine ⟨e, ?_, hfl⟩
        rw [herr]

/-- C1: after `ReportWillBeTransmitted` succeeds on a report containing a
block B with a non-empty VRF proof, a second call whose report again
contains B with a non-empty proof — made on the resulting state, before B's
cache entry can have been evicted — fails with an "already in flight"
conflict error and leaves the caches untouched. -/
theorem rwbt_no_duplicate_transmission (st st' : CoordinatorState)
    (r1 r2 : AbstractReport) (lb1 lb2 : Except Unit Int)
    (o1 o2 : AbstractVRFOutput)
    (ho1 : o1 ∈ r1.outputs) (hp1 : o1.vrfProof ≠ [])
    (hw : 0 ≤ st.toBeTransmittedBlocks.evictionWindow)
    (hok : ReportWillBeTransmitted st r1 lb1 = (none, st'))
    (ho2 : o2 ∈ r2.outputs) (hp2 : o2.vrfProof ≠ [])
    (_hsameH : o2.blockHeight = o1.blockHeight)
    (_hsameD : o2.confirmationDelay = o1.confirmationDelay) :
    ∃ e, ReportWillBeTransmitted st' r2 lb2 = (some e, st') ∧ e.isInFlight = true := by
  obtain ⟨x, hx⟩ := rwbt_ok_block_present st st' r1 lb1 hok o1 ho1 hp1 hw
  obtain ⟨e, herr, hfl⟩ := collect_fails_of_present st'.toBeTransmittedBlocks
    st'.toBeTransmittedCallbacks r2.outputs x hx o2 ho2 hp2
  refine ⟨e, ?_, hfl⟩
  unfold ReportWillBeTransmitted
  rw [herr]

/-- Witness for `rwbt_no_duplicate_transmission`: a first report claiming
block (height 10, delay 1) succeeds on empty caches, and replaying it is
rejected in flight. -/
theorem rwbt_no_duplicate_transmission_witness :
    (ReportWillBeTransmitted ⟨⟨4, []⟩, ⟨4, []⟩⟩ ⟨[⟨10, 1, [1], []⟩]⟩ (.ok 100) =
      (none, ⟨⟨4, [(0x7b7d, ⟨0, 10, 1⟩, 100)]⟩, ⟨4, []⟩⟩)) ∧
    (∃ e, ReportWillBeTransmitted ⟨⟨4, [(0x7b7d, ⟨0, 10, 1⟩, 100)]⟩, ⟨4, []⟩⟩
        ⟨[⟨10, 1, [1], []⟩]⟩ (.ok 105) =
        (some e, ⟨⟨4, [(0x7b7d, ⟨0, 10, 1⟩, 100)]⟩, ⟨4, []⟩⟩) ∧ e.isInFlight = true) :=
  ⟨by decide,
   rwbt_no_duplicate_transmission ⟨⟨4, []⟩, ⟨4, []⟩⟩
     ⟨⟨4, [(0x7b7d, ⟨0, 10, 1⟩, 100)]⟩, ⟨4, []⟩⟩
     ⟨[⟨10, 1, [1], []⟩]⟩ ⟨[⟨10, 1, [1], []⟩]⟩ (.ok 100) (.ok 105)
     ⟨10, 1, [1], []⟩ ⟨10, 1, [1], []⟩
     (by decide) (by decide) (by decide) (by decide)
     (by decide) (by decide) rfl rfl⟩

/-! ### C9: in-report duplicates are not detected -/

/-- C9: a report in which the same block key (with non-empty proofs) appears
in two distinct outputs, and the same callback key appears under both
outputs, passes `ReportWillBeTransmitted` when those keys are absent from
the caches at entry: every conflict check compares against the pre-call
cache contents, and all insertions happen after every check, so in-report
duplicates are not detected. -/
theorem rwbt_in_report_duplicates_pass (st : CoordinatorState) (r : AbstractReport)
    (n : Int) (o1 o2 : AbstractVRFOutput) (cb : AbstractCostedCallbackRequest)
    (hr : r.outputs = [o1, o2])
    (_hsameH : o2.blockHeight = o1.blockHeight)
    (_hsameD : o2.confirmationDelay = o1.confirmationDelay)
    (hp1 : o1.vrfProof ≠ []) (hp2 : o2.vrfProof ≠ [])
    (hc1 : o1.callbacks = [cb]) (hc2 : o2.callbacks = [cb])
    (hb : st.toBeTransmittedBlocks.GetItem (getCacheKey (blockOfOutput o1)) = none)
    (hcb : st.toBeTransmittedCallbacks.GetItem (getCacheKey (callbackOfReport cb)) = none) :
    (ReportWillBeTransmitted st r (.ok n)).1 = none := by
  have hl1 : 0 < o1.vrfProof.length := List.length_pos.mpr hp1
  have hl2 : 0 < o2.vrfProof.length := List.length_pos.mpr hp2
  unfold ReportWillBeTransmitted
  rw [hr]
  unfold collectReportKeys
  rw [if_pos hl1]
  have hb1 : st.toBeTransmittedBlocks.GetItem (getCacheKey (blockOfOutput o1)) = none := hb
  have hb2 : st.toBeTransmittedBlocks.GetItem (getCacheKey (blockOfOutput o2)) = none := hb
  rw [hb1]
  have hck : checkCallbacks st.toBeTransmittedCallbacks [cb] =
      .ok [callbackOfReport cb] := by
    unfold checkCallbacks
    rw [hcb]
    rfl
  rw [hc1, hck]
  unfold collectReportKeys
  rw [if_pos hl2, hb2, hc2, hck]
  unfold collectReportKeys
  rfl

/-- Witness for `rwbt_in_report_duplicates_pass`: the concrete report with
block (height 10, delay 1) duplicated across two outputs and callback
(height 10, request 7) duplicated under both, on empty caches. -/
theorem rwbt_in_report_duplicates_pass_witness :
    (ReportWillBeTransmitted ⟨⟨4, []⟩, ⟨4, []⟩⟩
      ⟨[⟨10, 1, [1], [⟨10, 1, 0, 0, 7, 1, 0, [], 0, 5, 0⟩]⟩,
        ⟨10, 1, [2], [⟨10, 1, 0, 0, 7, 1, 0, [], 0, 5, 0⟩]⟩]⟩ (.ok 100)).1 = none :=
  rwbt_in_report_duplicates_pass ⟨⟨4, []⟩, ⟨4, []⟩⟩
    ⟨[⟨10, 1, [1], [⟨10, 1, 0, 0, 7, 1, 0, [], 0, 5, 0⟩]⟩,
      ⟨10, 1, [2], [⟨10, 1, 0, 0, 7, 1, 0, [], 0, 5, 0⟩]⟩]⟩ 100
    ⟨10, 1, [1], [⟨10, 1, 0, 0, 7, 1, 0, [], 0, 5, 0⟩]⟩
    ⟨10, 1, [2], [⟨10, 1, 0, 0, 7, 1, 0, [], 0, 5, 0⟩]⟩
    ⟨10, 1, 0, 0, 7, 1, 0, [], 0, 5, 0⟩
    rfl rfl rfl (by decide) (by decide) rfl rfl (by decide) (by decide)

/-! ### Event logs and `unmarshalLogs` -/

/-- `VRFBeaconCoordinatorRandomnessRequested`: the decoded fields used by the
coordinator. -/
structure RandomnessRequestedLog where
  nextBeaconOutputHeight : Nat
  confDelay : Nat
deriving DecidableEq, Repr

/-- The `Callback` struct embedded in a fulfillment request log. -/
structure CallbackArgs where
  requestID : Nat
  numWords : Nat
  requester : Nat
  arguments : List Nat
  gasAllowance : Int
deriving DecidableEq, Repr

/-- `VRFBeaconCoordinatorRandomnessFulfillmentRequested`: the decoded fields
used by the coordinator, including the raw log position. -/
structure RandomnessFulfillmentRequestedLog where
  nextBeaconOutputHeight : Nat
  confDelay : Nat
  subID : Nat
  callback : CallbackArgs
  rawBlockNumber : Nat
  rawBlockHash : Nat
deriving DecidableEq, Repr

/-- `VRFBeaconCoordinatorRandomWordsFulfilled`: parallel arrays of request
IDs and fulfillment flags (a byte, 1 = success). -/
structure RandomWordsFulfilledLog where
  requestIDs : List Nat
  successfulFulfillment : List Nat
deriving DecidableEq, Repr

/-- One entry of `NewTransmission.OutputsServed`. -/
structure OutputServed where
  height : Nat
  confirmationDelay : Nat
deriving DecidableEq, Repr

/-- `VRFBeaconCoordinatorNewTransmission`: the outputs served on-chain. -/
structure NewTransmissionLog where
  outputsServed : List OutputServed
deriving DecidableEq, Repr

/-- The typed event a successful `ParseLog` can yield (the Go code receives
an interface value and type-asserts it against the expected event type; a
value of the wrong constructor models a failing type assertion). -/
inductive ParsedLog where
  | randomnessRequested (l : RandomnessRequestedLog)
  | randomnessFulfillmentRequested (l : RandomnessFulfillmentRequestedLog)
  | randomWordsFulfilled (l : RandomWordsFulfilledLog)
  | newTransmission (l : NewTransmissionLog)
deriving DecidableEq, Repr

deriving instance DecidableEq for Except

/-- A raw log as delivered by the log poller, with the outcome of the
contract binding's `ParseLog` for it supplied by the environment (the ABI
machinery is an external collaborator). -/
structure Log where
  eventSig : Nat
  parseResult : Except Unit ParsedLog
deriving DecidableEq, Repr

/-- The four VRF topic hashes held by the coordinator's `topics` record. -/
structure Topics where
  randomnessRequestedTopic : Nat
  randomnessFulfillmentRequestedTopic : Nat
  randomWordsFulfilledTopic : Nat
  newTransmissionTopic : Nat
deriving DecidableEq, Repr

/-- The wrapped decode errors `unmarshalLogs` can set: `ParseLog` failure or
a failed type assertion, for each of the four event kinds. -/
inductive UnmarshalError where
  | parseRandomnessRequested
  | castRandomnessRequested
  | parseRandomnessFulfillmentRequested
  | castRandomnessFulfillmentRequested
  | parseRandomWordsFulfilled
  | castRandomWordsFulfilled
  | parseNewTransmission
  | castNewTransmission
deriving DecidableEq, Repr

/-- The named return values of `unmarshalLogs`. `newTransmissionLogs` holds
`Option` entries because the Go code can append a nil pointer to that slice
(see `unmarshalLogsGo`); the other three slices only ever receive decoded
values. -/
structure UnmarshalOut where
  randomnessRequestedLogs : List RandomnessRequestedLog
  randomnessFulfillmentRequestedLogs : List RandomnessFulfillmentRequestedLog
  randomWordsFulfilledLogs : List RandomWordsFulfilledLog
  newTransmissionLogs : List (Option NewTransmissionLog)
  err : Option UnmarshalError
deriving DecidableEq, Repr

/-- The loop of `unmarshalLogs`, threading Go's named return values. On a
`ParseLog` failure, and on a failed type assertion for the first three event
kinds, the Go code sets `err` and returns immediately. In the
`NewTransmission` case the failed-assertion branch sets `err` but has no
`return`: the nil pointer is appended to `newTransmissionLogs` and the loop
keeps processing the remaining logs. Logs with an unknown topic are logged
and dropped. -/
def unmarshalLogsGo (t : Topics) : List Log → UnmarshalOut → UnmarshalOut
  | [], acc => acc
  | lg :: rest, acc =>
    if lg.eventSig = t.randomnessRequestedTopic then
      match lg.parseResult with
      | .error _ => { acc with err := some .parseRandomnessRequested }
      | .ok (.randomnessRequested x) =>
        unmarshalLogsGo t rest
          { acc with randomnessRequestedLogs := acc.randomnessRequestedLogs ++ [x] }
      | .ok _ => { acc with err := some .castRandomnessRequested }
    else if lg.eventSig = t.randomnessFulfillmentRequestedTopic then
      match lg.parseResult with
      | .error _ => { acc with err := some .parseRandomnessFulfillmentRequested }
      | .ok (.randomnessFulfillmentRequested x) =>
        unmarshalLogsGo t rest
          { acc with randomnessFulfillmentRequestedLogs :=
              acc.randomnessFulfillmentRequestedLogs ++ [x] }
      | .ok _ => { acc with err := some .castRandomnessFulfillmentRequested }
    else if lg.eventSig = t.randomWordsFulfilledTopic then
      match lg.parseResult with
      | .error _ => { acc with err := some .parseRandomWordsFulfilled }
      | .ok (.randomWordsFulfilled x) =>
        unmarshalLogsGo t rest
          { acc with randomWordsFulfilledLogs := acc.randomWordsFulfilledLogs ++ [x] }
      | .ok _ => { acc with err := some .castRandomWordsFulfilled }
    else if lg.eventSig = t.newTransmissionTopic then
      match lg.parseResult with
      | .error _ => { acc with err := some .parseNewTransmission }
      | .ok (.newTransmission x) =>
        unmarshalLogsGo t rest
          { acc with newTransmissionLogs := acc.newTransmissionLogs ++ [some x] }
      | .ok _ =>
        unmarshalLogsGo t rest
          { acc with err := some .castNewTransmission,
                     newTransmissionLogs := acc.newTransmissionLogs ++ [none] }
    else
      unmarshalLogsGo t rest acc

/-- `unmarshalLogs` from coordinator.go: classify the raw logs into the four
typed sequences. -/
def unmarshalLogs (t : Topics) (logs : List Log) : UnmarshalOut :=
  unmarshalLogsGo t logs ⟨[], [], [], [], none⟩

/-- C3 (evaluation at the failing input): a log carrying the NewTransmission
topic whose parsed value fails the type assertion, followed by a well-formed
RandomnessRequested log. The call sets the decode error but does not
short-circuit: a nil entry is appended to `newTransmissionLogs` and the
later log is still processed and appended, contradicting the claimed
fatal-short-circuit behaviour. -/
theorem unmarshalLogs_newTransmission_cast_no_shortcircuit :
    unmarshalLogs ⟨1, 2, 3, 4⟩
        [⟨4, .ok (.randomnessRequested ⟨7, 0⟩)⟩, ⟨1, .ok (.randomnessRequested ⟨9, 0⟩)⟩] =
      ⟨[⟨9, 0⟩], [], [], [none], some .castNewTransmission⟩ := by
  decide

/-! ### Eligibility filters -/

/-- The `block` value `filterEligibleRandomnessRequests` builds from a
request log (hash left at its zero value, delay truncated to `uint32`). -/
def blockOfRequest (r : RandomnessRequestedLog) : block :=
  ⟨0, r.nextBeaconOutputHeight, toUint32 (uint64ofBig r.confDelay)⟩

/-- The `block` value `filterEligibleCallbacks` builds from a fulfillment
request log. -/
def blockOfFulfillment (r : RandomnessFulfillmentRequestedLog) : block :=
  ⟨0, r.nextBeaconOutputHeight, toUint32 (uint64ofBig r.confDelay)⟩

/-- The `callback` cache key value `filterEligibleCallbacks` builds from a
fulfillment request log. -/
def callbackOfFulfillment (r : RandomnessFulfillmentRequestedLog) : callback :=
  ⟨0, r.nextBeaconOutputHeight, uint64ofBig r.callback.requestID⟩

/-- `filterEligibleRandomnessRequests` from coordinator.go: drop logs whose
(`uint32`-truncated) confirmation delay is unsupported, then emit a block
for each log that is not already scheduled for transmission and is
eligible. -/
def filterEligibleRandomnessRequests (bc : BlockCache block) :
    List RandomnessRequestedLog → List Nat → Int → List block
  | [], _, _ => []
  | r :: rest, confirmationDelays, currentHeight =>
    if toUint32 (uint64ofBig r.confDelay) ∈ confirmationDelays then
      if (bc.GetItem (getCacheKey (blockOfRequest r))).isNone
          && isBlockEligible r.nextBeaconOutputHeight r.confDelay currentHeight then
        blockOfRequest r :: filterEligibleRandomnessRequests bc rest confirmationDelays currentHeight
      else
        filterEligibleRandomnessRequests bc rest confirmationDelays currentHeight
    else
      filterEligibleRandomnessRequests bc rest confirmationDelays currentHeight

/-- `filterEligibleCallbacks` from coordinator.go: like the randomness
filter, but keyed on the callback cache; returns the retained fulfillment
logs together with the unfulfilled blocks they induce. -/
def filterEligibleCallbacks (cc : BlockCache callback) :
    List RandomnessFulfillmentRequestedLog → List Nat → Int →
      List RandomnessFulfillmentRequestedLog × List block
  | [], _, _ => ([], [])
  | r :: rest, confirmationDelays, currentHeight =>
    if toUint32 (uint64ofBig r.confDelay) ∈ confirmationDelays then
      if (cc.GetItem (getCacheKey (callbackOfFulfillment r))).isNone
          && isBlockEligible r.nextBeaconOutputHeight r.confDelay currentHeight then
        (r :: (filterEligibleCallbacks cc rest confirmationDelays currentHeight).1,
         blockOfFulfillment r :: (filterEligibleCallbacks cc rest confirmationDelays currentHeight).2)
      else
        filterEligibleCallbacks cc rest confirmationDelays currentHeight
    else
      filterEligibleCallbacks cc rest confirmationDelays currentHeight

/-- The `AbstractCostedCallbackRequest` that `filterUnfulfilledCallbacks`
assembles from a fulfillment request log; price is the fixed zero
placeholder. -/
def costedCallbackOf (r : RandomnessFulfillmentRequestedLog) : AbstractCostedCallbackRequest :=
  ⟨r.nextBeaconOutputHeight, toUint32 (uint64ofBig r.confDelay), r.subID, 0,
   uint64ofBig r.callback.requestID, r.callback.numWords, r.callback.requester,
   r.callback.arguments, r.callback.gasAllowance, r.rawBlockNumber, r.rawBlockHash⟩

/-- `filterUnfulfilledCallbacks` from coordinator.go: drop already fulfilled
request IDs and unsupported delays, keep the still-eligible candidates. -/
def filterUnfulfilledCallbacks :
    List RandomnessFulfillmentRequestedLog → List Nat → List Nat → Int →
      List AbstractCostedCallbackRequest
  | [], _, _, _ => []
  | r :: rest, fulfilledRequestIDs, confirmationDelays, currentHeight =>
    if uint64ofBig r.callback.requestID ∈ fulfilledRequestIDs then
      filterUnfulfilledCallbacks rest fulfilledRequestIDs confirmationDelays currentHeight
    else if toUint32 (uint64ofBig r.confDelay) ∈ confirmationDelays then
      if isBlockEligible r.nextBeaconOutputHeight r.confDelay currentHeight then
        costedCallbackOf r ::
          filterUnfulfilledCallbacks rest fulfilledRequestIDs confirmationDelays currentHeight
      else
        filterUnfulfilledCallbacks rest fulfilledRequestIDs confirmationDelays currentHeight
    else
      filterUnfulfilledCallbacks rest fulfilledRequestIDs confirmationDelays currentHeight

/-! ### C7: unsupported confirmation delays are excluded, not fatal -/

/-- Characterization of the blocks emitted by
`filterEligibleRandomnessRequests`: each comes from an input log with a
supported (truncated) delay that passed the eligibility check. -/
theorem mem_filterEligibleRandomnessRequests (bc : BlockCache block)
    (rrs : List RandomnessRequestedLog) (ds : List Nat) (ch : Int) (b : block)
    (hb : b ∈ filterEligibleRandomnessRequests bc rrs ds ch) :
    ∃ r ∈ rrs, b = blockOfRequest r ∧ toUint32 (uint64ofBig r.confDelay) ∈ ds ∧
      isBlockEligible r.nextBeaconOutputHeight r.confDelay ch = true := by
  induction rrs with
  | nil => simp [filterEligibleRandomnessRequests] at hb
  | cons r rest ih =>
    unfold filterEligibleRandomnessRequests at hb
    by_cases hds : toUint32 (uint64ofBig r.confDelay) ∈ ds
    · rw [if_pos hds] at hb
      by_cases hcond : ((bc.GetItem (getCacheKey (blockOfRequest r))).isNone
          && isBlockEligible r.nextBeaconOutputHeight r.confDelay ch) = true
      · rw [if_pos hcond] at hb
        rw [Bool.and_eq_true] at hcond
        rcases List.mem_cons.mp hb with rfl | hmem
        · exact ⟨r, List.mem_cons_self _ _, rfl, hds, hcond.2⟩
        · obtain ⟨r2, hr2, h⟩ := ih hmem
          exact ⟨r2, List.mem_cons_of_mem _ hr2, h⟩
      · rw [if_neg hcond] at hb
        obtain ⟨r2, hr2, h⟩ := ih hb
        exact ⟨r2, List.mem_cons_of_mem _ hr2, h⟩
    · rw [if_neg hds] at hb
      obtain ⟨r2, hr2, h⟩ := ih hb
      exact ⟨r2, List.mem_cons_of_mem _ hr2, h⟩

/-- Characterization of the retained logs of `filterEligibleCallbacks`. -/
theorem mem_filterEligibleCallbacks_fst (cc : BlockCache callback)
    (rfrs : List RandomnessFulfillmentRequestedLog) (ds : List Nat) (ch : Int)
    (r2 : RandomnessFulfillmentRequestedLog)
    (hr : r2 ∈ (filterEligibleCallbacks cc rfrs ds ch).1) :
    r2 ∈ rfrs ∧ toUint32 (uint64ofBig r2.confDelay) ∈ ds ∧
      isBlockEligible r2.nextBeaconOutputHeight r2.confDelay ch = true := by
  induction rfrs with
  | nil => simp [filterEligibleCallbacks] at hr
  | cons r rest ih =>
    unfold filterEligibleCallbacks at hr
    by_cases hds : toUint32 (uint64ofBig r.confDelay) ∈ ds
    · rw [if_pos hds] at hr
      by_cases hcond : ((cc.GetItem (getCacheKey (callbackOfFulfillment r))).isNone
          && isBlockEligible r.nextBeaconOutputHeight r.confDelay ch) = true
      · rw [if_pos hcond] at hr
        simp only [] at hr
        rw [Bool.and_eq_true] at hcond
        rcases List.mem_cons.mp hr with rfl | hmem
        · exact ⟨List.mem_cons_self _ _, hds, hcond.2⟩
        · obtain ⟨hmem2, h⟩ := ih hmem
          exact ⟨List.mem_cons_of_mem _ hmem2, h⟩
      · rw [if_neg hcond] at hr
        obtain ⟨hmem2, h⟩ := ih hr
        exact ⟨List.mem_cons_of_mem _ hmem2, h⟩
    · rw [if_neg hds] at hr
      obtain ⟨hmem2, h⟩ := ih hr
      exact ⟨List.mem_cons_of_mem _ hmem2, h⟩

/-- Characterization of the unfulfilled blocks emitted by
`filterEligibleCallbacks`. -/
theorem mem_filterEligibleCallbacks_snd (cc : BlockCache callback)
    (rfrs : List RandomnessFulfillmentRequestedLog) (ds : List Nat) (ch : Int) (b : block)
    (hb : b ∈ (filterEligibleCallbacks cc rfrs ds ch).2) :
    ∃ r ∈ rfrs, b = blockOfFulfillment r ∧ toUint32 (uint64ofBig r.confDelay) ∈ ds ∧
      isBlockEligible r.nextBeaconOutputHeight r.confDelay ch = true := by
  induction rfrs with
  | nil => simp [filterEligibleCallbacks] at hb
  | cons r rest ih =>
    unfold filterEligibleCallbacks at hb
    by_cases hds : toUint32 (uint64ofBig r.confDelay) ∈ ds
    · rw [if_pos hds] at hb
      by_cases hcond : ((cc.GetItem (getCacheKey (callbackOfFulfillment r))).isNone
          && isBlockEligible r.nextBeaconOutputHeight r.confDelay ch) = true
      · rw [if_pos hcond] at hb
        simp only [] at hb
        rw [Bool.and_eq_true] at hcond
        rcases List.mem_cons.mp hb with rfl | hmem
        · exact ⟨r, List.mem_cons_self _ _, rfl, hds, hcond.2⟩
        · obtain ⟨r2, hr2, h⟩ := ih hmem
          exact ⟨r2, List.mem_cons_of_mem _ hr2, h⟩
      · rw [if_neg hcond] at hb
        obtain ⟨r2, hr2, h⟩ := ih hb
        exact ⟨r2, List.mem_cons_of_mem _ hr2, h⟩
    · rw [if_neg hds] at hb
      obtain ⟨r2, hr2, h⟩ := ih hb
      exact ⟨r2, List.mem_cons_of_mem _ hr2, h⟩

/-- Characterization of the callbacks kept by `filterUnfulfilledCallbacks`. -/
theorem mem_filterUnfulfilledCallbacks
    (rfrs : List RandomnessFulfillmentRequestedLog) (fulfilled ds : List Nat) (ch : Int)
    (c : AbstractCostedCallbackRequest)
    (hc : c ∈ filterUnfulfilledCallbacks rfrs fulfilled ds ch) :
    ∃ r ∈ rfrs, c = costedCallbackOf r ∧ toUint32 (uint64ofBig r.confDelay) ∈ ds := by
  induction rfrs with
  | nil => simp [filterUnfulfilledCallbacks] at hc
  | cons r rest ih =>
    unfold filterUnfulfilledCallbacks at hc
    by_cases hful : uint64ofBig r.callback.requestID ∈ fulfilled
    · rw [if_pos hful] at hc
      obtain ⟨r2, hr2, h⟩ := ih hc
      exact ⟨r2, List.mem_cons_of_mem _ hr2, h⟩
    · rw [if_neg hful] at hc
      by_cases hds : toUint32 (uint64ofBig r.confDelay) ∈ ds
      · rw [if_pos hds] at hc
        by_cases hel : isBlockEligible r.nextBeaconOutputHeight r.confDelay ch = true
        · rw [if_pos hel] at hc
          rcases List.mem_cons.mp hc with rfl | hmem
          · exact ⟨r, List.mem_cons_self _ _, rfl, hds⟩
          · obtain ⟨r2, hr2, h⟩ := ih hmem
            exact ⟨r2, List.mem_cons_of_mem _ hr2, h⟩
        · rw [if_neg hel] at hc
          obtain ⟨r2, hr2, h⟩ := ih hc
          exact ⟨r2, List.mem_cons_of_mem _ hr2, h⟩
      · rw [if_neg hds] at hc
        obtain ⟨r2, hr2, h⟩ := ih hc
        exact ⟨r2, List.mem_cons_of_mem _ hr2, h⟩

/-- Removing the unsupported-delay logs from the input does not change the
output of `filterEligibleRandomnessRequests`. -/
theorem filterEligibleRandomnessRequests_drop_unsupported (bc : BlockCache block)
    (rrs : List RandomnessRequestedLog) (ds : List Nat) (ch : Int) :
    filterEligibleRandomnessRequests bc rrs ds ch =
      filterEligibleRandomnessRequests bc
        (rrs.filter (fun r => decide (toUint32 (uint64ofBig r.confDelay) ∈ ds))) ds ch := by
  induction rrs with
  | nil => rfl
  | cons r rest ih =>
    by_cases hds : toUint32 (uint64ofBig r.confDelay) ∈ ds
    · rw [List.filter_cons, if_pos (by simpa using hds)]
      unfold filterEligibleRandomnessRequests
      rw [if_pos hds, if_pos hds, ih]
    · rw [List.filter_cons, if_neg (by simpa using hds)]
      conv_lhs => unfold filterEligibleRandomnessRequests
      rw [if_neg hds, ih]

/-- Removing the unsupported-delay logs from the input does not change the
output of `filterEligibleCallbacks`. -/
theorem filterEligibleCallbacks_drop_unsupported (cc : BlockCache callback)
    (rfrs : List RandomnessFulfillmentRequestedLog) (ds : List Nat) (ch : Int) :
    filterEligibleCallbacks cc rfrs ds ch =
      filterEligibleCallbacks cc
        (rfrs.filter (fun r => decide (toUint32 (uint64ofBig r.confDelay) ∈ ds))) ds ch := by
  induction rfrs with
  | nil => rfl
  | cons r rest ih =>
    by_cases hds : toUint32 (uint64ofBig r.confDelay) ∈ ds
    · rw [List.filter_cons, if_pos (by simpa using hds)]
      unfold filterEligibleCallbacks
      rw [if_pos hds, if_pos hds, ih]
    · rw [List.filter_cons, if_neg (by simpa using hds)]
      conv_lhs => unfold filterEligibleCallbacks
      rw [if_neg hds, ih]

/-- Removing the unsupported-delay logs from the input does not change the
output of `filterUnfulfilledCallbacks`. -/
theorem filterUnfulfilledCallbacks_drop_unsupported
    (rfrs : List RandomnessFulfillmentRequestedLog) (fulfilled ds : List Nat) (ch : Int) :
    filterUnfulfilledCallbacks rfrs fulfilled ds ch =
      filterUnfulfilledCallbacks
        (rfrs.filter (fun r => decide (toUint32 (uint64ofBig r.confDelay) ∈ ds)))
        fulfilled ds ch := by
  induction rfrs with
  | nil => rfl
  | cons r rest ih =>
    by_cases hds : toUint32 (uint64ofBig r.confDelay) ∈ ds
    · rw [List.filter_cons, if_pos (by simpa using hds)]
      unfold filterUnfulfilledCallbacks
      by_cases hful : uint64ofBig r.callback.requestID ∈ fulfilled
      · rw [if_pos hful, if_pos hful, ih]
      · rw [if_neg hful, if_neg hful, if_pos hds, if_pos hds, ih]
    · rw [List.filter_cons, if_neg (by simpa using hds)]
      conv_lhs => unfold filterUnfulfilledCallbacks
      by_cases hful : uint64ofBig r.callback.requestID ∈ fulfilled
      · rw [if_pos hful, ih]
      · rw [if_neg hful, if_neg hds, ih]

/-- C7: a request or callback log whose (`uint32`-truncated) confirmation
delay is not in the supported set contributes to no output of any of the
three filters, and its presence does not change what the filters produce for
the remaining logs; the filters complete normally (they are total — the only
error source in the Go code, `getCacheKey`, cannot fail for these types). -/
theorem filters_exclude_unsupported_delay (bc : BlockCache block)
    (cc : BlockCache callback) (rrs : List RandomnessRequestedLog)
    (rfrs : List RandomnessFulfillmentRequestedLog) (fulfilled ds : List Nat) (ch : Int) :
    ((filterEligibleRandomnessRequests bc rrs ds ch).all
        (fun b => decide (b.confDelay ∈ ds)) = true) ∧
    ((filterEligibleCallbacks cc rfrs ds ch).1.all
        (fun r => decide (toUint32 (uint64ofBig r.confDelay) ∈ ds)) = true) ∧
    ((filterEligibleCallbacks cc rfrs ds ch).2.all
        (fun b => decide (b.confDelay ∈ ds)) = true) ∧
    ((filterUnfulfilledCallbacks rfrs fulfilled ds ch).all
        (fun c => decide (c.confirmationDelay ∈ ds)) = true) ∧
    (filterEligibleRandomnessRequests bc rrs ds ch =
      filterEligibleRandomnessRequests bc
        (rrs.filter (fun r => decide (toUint32 (uint64ofBig r.confDelay) ∈ ds))) ds ch) ∧
    (filterEligibleCallbacks cc rfrs ds ch =
      filterEligibleCallbacks cc
        (rfrs.filter (fun r => decide (toUint32 (uint64ofBig r.confDelay) ∈ ds))) ds ch) ∧
    (filterUnfulfilledCallbacks rfrs fulfilled ds ch =
      filterUnfulfilledCallbacks
        (rfrs.filter (fun r => decide (toUint32 (uint64ofBig r.confDelay) ∈ ds)))
        fulfilled ds ch) := by
  refine ⟨?_, ?_, ?_, ?_, ?_, ?_, ?_⟩
  · rw [List.all_eq_true]
    intro b hb
    obtain ⟨r, _, rfl, hds, _⟩ := mem_filterEligibleRandomnessRequests bc rrs ds ch b hb
    simpa [blockOfRequest] using hds
  · rw [List.all_eq_true]
    intro r hr
    obtain ⟨_, hds, _⟩ := mem_filterEligibleCallbacks_fst cc rfrs ds ch r hr
    simpa using hds
  · rw [List.all_eq_true]
    intro b hb
    obtain ⟨r, _, rfl, hds, _⟩ := mem_filterEligibleCallbacks_snd cc rfrs ds ch b hb
    simpa [blockOfFulfillment] using hds
  · rw [List.all_eq_true]
    intro c hc
    obtain ⟨r, _, rfl, hds⟩ := mem_filterUnfulfilledCallbacks rfrs fulfilled ds ch c hc
    simpa [costedCallbackOf] using hds
  · exact filterEligibleRandomnessRequests_drop_unsupported bc rrs ds ch
  · exact filterEligibleCallbacks_drop_unsupported cc rfrs ds ch
  · exact filterUnfulfilledCallbacks_drop_unsupported rfrs fulfilled ds ch

/-! ### ReportBlocks -/

/-- A head returned by the log poller's `GetBlocks`. -/
structure Head where
  blockNumber : Int
  blockHash : Nat
deriving DecidableEq, Repr

/-- `ocr2vrftypes.Block`, the unit `ReportBlocks` returns. -/
structure Block where
  hash : Nat
  height : Nat
  confirmationDelay : Nat
deriving DecidableEq, Repr

/-- The wrapped fatal errors of `ReportBlocks`. -/
inductive ReportBlocksError where
  | headerByNumber
  | logsWithSigs
  | unmarshal (e : UnmarshalError)
  | getBlockhashes
deriving DecidableEq, Repr

/-- Insertion into a Go map used as a set of heights (membership is what
matters; insertion order stands in for Go's map iteration order). -/
def insertNatSet (s : List Nat) (n : Nat) : List Nat :=
  if n ∈ s then s else s ++ [n]

/-- First loop of `getBlockhashesMappingFromRequests`: collect the eligible
heights of the plain randomness request logs. -/
def rawHeightsRR (ch : Int) : List RandomnessRequestedLog → List Nat → List Nat
  | [], s => s
  | l :: rest, s =>
    rawHeightsRR ch rest
      (if isBlockEligible l.nextBeaconOutputHeight l.confDelay ch then
        insertNatSet s l.nextBeaconOutputHeight
      else s)

/-- Second loop of `getBlockhashesMappingFromRequests`: collect the eligible
heights of the fulfillment request logs. -/
def rawHeightsRFR (ch : Int) : List RandomnessFulfillmentRequestedLog → List Nat → List Nat
  | [], s => s
  | l :: rest, s =>
    rawHeightsRFR ch rest
      (if isBlockEligible l.nextBeaconOutputHeight l.confDelay ch then
        insertNatSet s l.nextBeaconOutputHeight
      else s)

/-- The `requestedBlockNumbers` list of `getBlockhashesMappingFromRequests`:
every height of a randomness or fulfillment request log that passes
`isBlockEligible`, each once. -/
def rawRequestedHeights (rrs : List RandomnessRequestedLog)
    (rfrs : List RandomnessFulfillmentRequestedLog) (ch : Int) : List Nat :=
  rawHeightsRFR ch rfrs (rawHeightsRR ch rrs [])

/-- Go map assignment `m[k] = v`: a later write shadows an earlier one (the
lookup below reads from the most recent write). -/
def mapInsert (m : List (Nat × Nat)) (k v : Nat) : List (Nat × Nat) := (k, v) :: m

/-- Go map read `m[k]` with the zero value for a missing key. -/
def mapLookup (m : List (Nat × Nat)) (k : Nat) : Nat :=
  ((m.find? (fun e => e.1 = k)).map Prod.snd).getD 0

/-- The mapping loop of `getBlockhashesMapping`:
`blockhashesMapping[uint64(head.BlockNumber)] = head.BlockHash`. -/
def mkBlockhashesMapping (heads : List Head) : List (Nat × Nat) :=
  heads.foldl (fun m hd => mapInsert m (toUint64 hd.blockNumber) hd.blockHash) []

/-- `getBlockhashesMapping` from coordinator.go: query `GetBlocks` and fail
when it does not return one head per requested number. (The Go code only
surfaces a `GetBlocks` failure through this length check.) -/
def getBlockhashesMapping (blockNumbers : List Nat) (getBlocks : List Nat → List Head) :
    Except Unit (List (Nat × Nat)) :=
  if (getBlocks blockNumbers).length ≠ blockNumbers.length then .error ()
  else .ok (mkBlockhashesMapping (getBlocks blockNumbers))

/-- Insertion into the `blocksRequested` set (a Go map keyed by `block`). -/
def insertBlockSet (s : List block) (b : block) : List block :=
  if b ∈ s then s else s ++ [b]

/-- The loops `for _, uf := range unfulfilled` that add filter results to
the `blocksRequested` set. -/
def addBlocksToSet : List block → List block → List block
  | s, [] => s
  | s, b :: rest => addBlocksToSet (insertBlockSet s b) rest

/-- The loop `for _, f := range fulfilledBlocks { delete(blocksRequested, f) }`. -/
def deleteBlocks : List block → List block → List block
  | s, [] => s
  | s, f :: rest => deleteBlocks (s.filter (fun b => ¬ b = f)) rest

/-- `getFulfilledBlocks` from coordinator.go: every (height, truncated
delay) pair served by a `NewTransmission` log, as a `block` with the hash
field left at its zero value. -/
def getFulfilledBlocks : List NewTransmissionLog → List block
  | [] => []
  | r :: rest =>
    r.outputsServed.map
        (fun o => block.mk 0 o.height (toUint32 (uint64ofBig o.confirmationDelay)))
      ++ getFulfilledBlocks rest

/-- The inner loop of `getFulfilledRequestIDs` over one log's parallel
arrays (well-formed logs have arrays of equal length, which the Go indexing
assumes). -/
def addFulfilledIDs (s : List Nat) (r : RandomWordsFulfilledLog) : List Nat :=
  (r.requestIDs.zip r.successfulFulfillment).foldl
    (fun s p => if p.2 = 1 then insertNatSet s (uint64ofBig p.1) else s) s

/-- `getFulfilledRequestIDs` from coordinator.go: the request IDs whose
fulfillment flag equals 1. -/
def getFulfilledRequestIDs (ls : List RandomWordsFulfilledLog) : List Nat :=
  ls.foldl addFulfilledIDs []

/-- The `blocksRequested` set of `ReportBlocks` after both filter passes and
the removal of the blocks served on-chain. Under `err = none` every entry of
`newTransmissionLogs` is `some`, so the `filterMap id` is just the
coercion from the option-valued slice to the plain slice the Go code holds. -/
def requestedBlockSet (st : CoordinatorState) (ds : List Nat) (ch : Int)
    (u : UnmarshalOut) : List block :=
  deleteBlocks
    (addBlocksToSet
      (addBlocksToSet []
        (filterEligibleRandomnessRequests st.toBeTransmittedBlocks
          u.randomnessRequestedLogs ds ch))
      (filterEligibleCallbacks st.toBeTransmittedCallbacks
        u.randomnessFulfillmentRequestedLogs ds ch).2)
    (getFulfilledBlocks (u.newTransmissionLogs.filterMap id))

/-- The result assembly of `ReportBlocks` once the blockhash mapping is
available: emit each remaining requested block with its mapped hash, and the
unfulfilled callbacks. -/
def reportBlocksCore (st : CoordinatorState) (ds : List Nat) (ch : Int)
    (u : UnmarshalOut) (blockhashesMapping : List (Nat × Nat)) :
    List Block × List AbstractCostedCallbackRequest :=
  ((requestedBlockSet st ds ch u).map
    (fun b => Block.mk (mapLookup blockhashesMapping b.blockNumber) b.blockNumber b.confDelay),
   filterUnfulfilledCallbacks
     (filterEligibleCallbacks st.toBeTransmittedCallbacks
       u.randomnessFulfillmentRequestedLogs ds ch).1
     (getFulfilledRequestIDs u.randomWordsFulfilledLogs) ds ch)

/-- `ReportBlocks` from coordinator.go, with the log poller queries
(`LatestBlock`, `LogsWithSigs`, `GetBlocks`) passed in as environment
values. -/
def ReportBlocks (st : CoordinatorState) (ds : List Nat) (t : Topics)
    (latestBlock : Except Unit Int) (logsWithSigs : Except Unit (List Log))
    (getBlocks : List Nat → List Head) :
    Except ReportBlocksError (List Block × List AbstractCostedCallbackRequest) :=
  match latestBlock with
  | .error _ => .error .headerByNumber
  | .ok currentHeight =>
    match logsWithSigs with
    | .error _ => .error .logsWithSigs
    | .ok lgs =>
      match (unmarshalLogs t lgs).err with
      | some e => .error (.unmarshal e)
      | none =>
        match getBlockhashesMapping
            (rawRequestedHeights (unmarshalLogs t lgs).randomnessRequestedLogs
              (unmarshalLogs t lgs).randomnessFulfillmentRequestedLogs currentHeight)
            getBlocks with
        | .error _ => .error .getBlockhashes
        | .ok blockhashesMapping =>
          .ok (reportBlocksCore st ds currentHeight (unmarshalLogs t lgs) blockhashesMapping)

/-! ### Set and mapping lemmas for ReportBlocks -/

theorem mem_insertBlockSet {s : List block} {b x : block} :
    x ∈ insertBlockSet s b ↔ x ∈ s ∨ x = b := by
  unfold insertBlockSet
  by_cases hb : b ∈ s
  · rw [if_pos hb]
    constructor
    · exact Or.inl
    · rintro (hx | rfl)
      · exact hx
      · exact hb
  · rw [if_neg hb]
    simp

theorem mem_addBlocksToSet {l : List block} {s : List block} {x : block} :
    x ∈ addBlocksToSet s l ↔ x ∈ s ∨ x ∈ l := by
  induction l generalizing s with
  | nil => simp [addBlocksToSet]
  | cons b rest ih =>
    unfold addBlocksToSet
    rw [ih, mem_insertBlockSet]
    simp only [List.mem_cons]
    tauto

theorem mem_deleteBlocks_sub {fs : List block} {s : List block} {x : block}
    (hx : x ∈ deleteBlocks s fs) : x ∈ s := by
  induction fs generalizing s with
  | nil => exact hx
  | cons f rest ih =>
    unfold deleteBlocks at hx
    exact List.mem_of_mem_filter (ih hx)

theorem mem_deleteBlocks_ne {fs : List block} {s : List block} {x f : block}
    (hx : x ∈ deleteBlocks s fs) (hf : f ∈ fs) : x ≠ f := by
  induction fs generalizing s with
  | nil => cases hf
  | cons f0 rest ih =>
    unfold deleteBlocks at hx
    rcases List.mem_cons.mp hf with rfl | hmem
    · have hx2 : x ∈ s.filter (fun b => ¬ b = f) := mem_deleteBlocks_sub hx
      have := List.of_mem_filter hx2
      simpa using this
    · exact ih hx hmem

theorem mem_getFulfilledBlocks {nts : List NewTransmissionLog}
    {v : NewTransmissionLog} {o : OutputServed}
    (hv : v ∈ nts) (ho : o ∈ v.outputsServed) :
    block.mk 0 o.height (toUint32 (uint64ofBig o.confirmationDelay))
      ∈ getFulfilledBlocks nts := by
  induction nts with
  | nil => cases hv
  | cons r rest ih =>
    unfold getFulfilledBlocks
    rw [List.mem_append]
    rcases List.mem_cons.mp hv with rfl | hmem
    · exact Or.inl (List.mem_map.mpr ⟨o, ho, rfl⟩)
    · exact Or.inr (ih hmem)

/-- Every element of the assembled `blocksRequested` set comes out of one of
the two filters: its hash field is zero, its delay is a `uint32`, and its
height belongs to an eligible request or fulfillment log. -/
theorem mem_requestedBlockSet (st : CoordinatorState) (ds : List Nat) (ch : Int)
    (u : UnmarshalOut) (e : block)
    (he : e ∈ requestedBlockSet st ds ch u) :
    e.blockHash = 0 ∧ e.confDelay < U32 ∧
      ((∃ r ∈ u.randomnessRequestedLogs, e.blockNumber = r.nextBeaconOutputHeight ∧
          isBlockEligible r.nextBeaconOutputHeight r.confDelay ch = true) ∨
       (∃ r ∈ u.randomnessFulfillmentRequestedLogs, e.blockNumber = r.nextBeaconOutputHeight ∧
          isBlockEligible r.nextBeaconOutputHeight r.confDelay ch = true)) := by
  have hs2 := mem_deleteBlocks_sub he
  rcases mem_addBlocksToSet.mp hs2 with hs1 | hf2
  · rcases mem_addBlocksToSet.mp hs1 with hnil | hf1
    · cases hnil
    · obtain ⟨r, hr, rfl, _, hel⟩ :=
        mem_filterEligibleRandomnessRequests _ _ _ _ _ hf1
      refine ⟨rfl, ?_, Or.inl ⟨r, hr, rfl, hel⟩⟩
      exact Nat.mod_lt _ (by norm_num [U32])
  · obtain ⟨r, hr, rfl, _, hel⟩ := mem_filterEligibleCallbacks_snd _ _ _ _ _ hf2
    refine ⟨rfl, ?_, Or.inr ⟨r, hr, rfl, hel⟩⟩
    exact Nat.mod_lt _ (by norm_num [U32])

/-- Extracting the shape of a successful `ReportBlocks` result. -/
theorem reportBlocks_ok_blocks (st : CoordinatorState) (ds : List Nat) (t : Topics)
    (getBlocks : List Nat → List Head) (blocks : List Block)
    (cbs : List AbstractCostedCallbackRequest) (ch : Int) (lgs : List Log)
    (hok : ReportBlocks st ds t (.ok ch) (.ok lgs) getBlocks = .ok (blocks, cbs)) :
    blocks = (requestedBlockSet st ds ch (unmarshalLogs t lgs)).map
      (fun b => Block.mk
        (mapLookup
          (mkBlockhashesMapping (getBlocks
            (rawRequestedHeights (unmarshalLogs t lgs).randomnessRequestedLogs
              (unmarshalLogs t lgs).randomnessFulfillmentRequestedLogs ch)))
          b.blockNumber)
        b.blockNumber b.confDelay) := by
  simp only [ReportBlocks] at hok
  cases herr : (unmarshalLogs t lgs).err with
  | some e => rw [herr] at hok; exact Except.noConfusion hok
  | none =>
    rw [herr] at hok
    cases hm : getBlockhashesMapping
        (rawRequestedHeights (unmarshalLogs t lgs).randomnessRequestedLogs
          (unmarshalLogs t lgs).randomnessFulfillmentRequestedLogs ch) getBlocks with
    | error u2 => rw [hm] at hok; exact Except.noConfusion hok
    | ok m =>
      rw [hm] at hok
      unfold getBlockhashesMapping at hm
      by_cases hlen : (getBlocks
          (rawRequestedHeights (unmarshalLogs t lgs).randomnessRequestedLogs
            (unmarshalLogs t lgs).randomnessFulfillmentRequestedLogs ch)).length ≠
          (rawRequestedHeights (unmarshalLogs t lgs).randomnessRequestedLogs
            (unmarshalLogs t lgs).randomnessFulfillmentRequestedLogs ch).length
      · rw [if_pos hlen] at hm; exact Except.noConfusion hm
      · rw [if_neg hlen] at hm
        have hm2 : mkBlockhashesMapping (getBlocks
            (rawRequestedHeights (unmarshalLogs t lgs).randomnessRequestedLogs
              (unmarshalLogs t lgs).randomnessFulfillmentRequestedLogs ch)) = m := by
          injection hm
        have hok2 : reportBlocksCore st ds ch (unmarshalLogs t lgs) m = (blocks, cbs) := by
          injection hok
        rw [← hm2] at hok2
        have := congrArg Prod.fst hok2
        simpa [reportBlocksCore] using this.symm

/-- C5: a (height, delay) pair served in any `NewTransmission.OutputsServed`
entry among the scanned logs never appears among the blocks returned by a
successful `ReportBlocks` call — regardless of the dedup cache state. -/
theorem reportBlocks_fulfilled_not_reoffered (st : CoordinatorState) (ds : List Nat)
    (t : Topics) (lb : Except Unit Int) (lgsE : Except Unit (List Log))
    (getBlocks : List Nat → List Head) (blocks : List Block)
    (cbs : List AbstractCostedCallbackRequest) (ch : Int) (lgs : List Log)
    (v : NewTransmissionLog) (os : OutputServed)
    (hok : ReportBlocks st ds t lb lgsE getBlocks = .ok (blocks, cbs))
    (hlb : lb = .ok ch) (hlgs : lgsE = .ok lgs)
    (hv : some v ∈ (unmarshalLogs t lgs).newTransmissionLogs)
    (hos : os ∈ v.outputsServed) :
    ∀ b ∈ blocks, ¬ (b.height = os.height ∧ b.confirmationDelay = os.confirmationDelay) := by
  subst hlb hlgs
  intro b hb ⟨hh, hd⟩
  rw [reportBlocks_ok_blocks st ds t getBlocks blocks cbs ch lgs hok] at hb
  obtain ⟨e, he, heq⟩ := List.mem_map.mp hb
  have hbh : b.height = e.blockNumber := by rw [← heq]
  have hbd : b.confirmationDelay = e.confDelay := by rw [← heq]
  obtain ⟨hhash, hlt, _⟩ := mem_requestedBlockSet st ds ch (unmarshalLogs t lgs) e he
  have hvmem : v ∈ (unmarshalLogs t lgs).newTransmissionLogs.filterMap id :=
    List.mem_filterMap.mpr ⟨some v, hv, rfl⟩
  have hful : block.mk 0 os.height (toUint32 (uint64ofBig os.confirmationDelay))
      ∈ getFulfilledBlocks ((unmarshalLogs t lgs).newTransmissionLogs.filterMap id) :=
    mem_getFulfilledBlocks hvmem hos
  have hne : e ≠ block.mk 0 os.height (toUint32 (uint64ofBig os.confirmationDelay)) :=
    mem_deleteBlocks_ne he hful
  apply hne
  have hd2 : e.confDelay = os.confirmationDelay := by rw [← hbd, hd]
  have hcd : toUint32 (uint64ofBig os.confirmationDelay) = os.confirmationDelay := by
    rw [← hd2]
    unfold toUint32 uint64ofBig
    rw [Nat.mod_eq_of_lt (lt_trans hlt (by norm_num [U32, U64]))]
    exact Nat.mod_eq_of_lt hlt
  obtain ⟨eh, en, ed⟩ := e
  simp only at hhash hbh hbd
  rw [hcd]
  rw [← hh, hbh, ← hd, hbd, hhash]

/-- Witness for `reportBlocks_fulfilled_not_reoffered`: requests at heights
95 and 90 (delay 3) at height 100, with a `NewTransmission` serving
(95, 3); only (90, 3) is returned, and it differs from the served pair. -/
theorem reportBlocks_fulfilled_not_reoffered_witness :
    (ReportBlocks ⟨⟨4, []⟩, ⟨4, []⟩⟩ [3] ⟨1, 2, 3, 4⟩ (.ok 100)
        (.ok [⟨1, .ok (.randomnessRequested ⟨95, 3⟩)⟩,
              ⟨1, .ok (.randomnessRequested ⟨90, 3⟩)⟩,
              ⟨4, .ok (.newTransmission ⟨[⟨95, 3⟩]⟩)⟩])
        (fun ns => ns.map (fun n => Head.mk (Int.ofNat n) (n + 1000))) =
      .ok ([⟨1090, 90, 3⟩], [])) ∧
    ¬ ((Block.mk 1090 90 3).height = 95 ∧ (Block.mk 1090 90 3).confirmationDelay = 3) :=
  ⟨by decide,
   reportBlocks_fulfilled_not_reoffered ⟨⟨4, []⟩, ⟨4, []⟩⟩ [3] ⟨1, 2, 3, 4⟩
     (.ok 100)
     (.ok [⟨1, .ok (.randomnessRequested ⟨95, 3⟩)⟩,
           ⟨1, .ok (.randomnessRequested ⟨90, 3⟩)⟩,
           ⟨4, .ok (.newTransmission ⟨[⟨95, 3⟩]⟩)⟩])
     (fun ns => ns.map (fun n => Head.mk (Int.ofNat n) (n + 1000)))
     [⟨1090, 90, 3⟩] [] 100
     [⟨1, .ok (.randomnessRequested ⟨95, 3⟩)⟩,
      ⟨1, .ok (.randomnessRequested ⟨90, 3⟩)⟩,
      ⟨4, .ok (.newTransmission ⟨[⟨95, 3⟩]⟩)⟩]
     ⟨[⟨95, 3⟩]⟩ ⟨95, 3⟩
     (by decide) rfl rfl (by decide) (by decide)
     ⟨1090, 90, 3⟩ (by decide)⟩

/-! ### C10: returned blocks carry hashes fetched for their heights -/

theorem mem_insertNatSet {s : List Nat} {n x : Nat} :
    x ∈ insertNatSet s n ↔ x ∈ s ∨ x = n := by
  unfold insertNatSet
  by_cases hn : n ∈ s
  · rw [if_pos hn]
    constructor
    · exact Or.inl
    · rintro (hx | rfl)
      · exact hx
      · exact hn
  · rw [if_neg hn]
    simp

theorem rawHeightsRR_mono (ch : Int) (l : List RandomnessRequestedLog)
    {s : List Nat} {x : Nat} (hx : x ∈ s) : x ∈ rawHeightsRR ch l s := by
  induction l generalizing s with
  | nil => exact hx
  | cons l0 rest ih =>
    unfold rawHeightsRR
    by_cases hel : isBlockEligible l0.nextBeaconOutputHeight l0.confDelay ch = true
    · rw [if_pos hel]
      exact ih (mem_insertNatSet.mpr (Or.inl hx))
    · rw [if_neg hel]
      exact ih hx

theorem rawHeightsRR_mem (ch : Int) (l : List RandomnessRequestedLog)
    {s : List Nat} {r : RandomnessRequestedLog} (hr : r ∈ l)
    (hel : isBlockEligible r.nextBeaconOutputHeight r.confDelay ch = true) :
    r.nextBeaconOutputHeight ∈ rawHeightsRR ch l s := by
  induction l generalizing s with
  | nil => cases hr
  | cons l0 rest ih =>
    unfold rawHeightsRR
    rcases List.mem_cons.mp hr with rfl | hmem
    · rw [if_pos hel]
      exact rawHeightsRR_mono ch rest (mem_insertNatSet.mpr (Or.inr rfl))
    · by_cases hel0 : isBlockEligible l0.nextBeaconOutputHeight l0.confDelay ch = true
      · rw [if_pos hel0]
        exact ih hmem
      · rw [if_neg hel0]
        exact ih hmem

theorem rawHeightsRFR_mono (ch : Int) (l : List RandomnessFulfillmentRequestedLog)
    {s : List Nat} {x : Nat} (hx : x ∈ s) : x ∈ rawHeightsRFR ch l s := by
  induction l generalizing s with
  | nil => exact hx
  | cons l0 rest ih =>
    unfold rawHeightsRFR
    by_cases hel : isBlockEligible l0.nextBeaconOutputHeight l0.confDelay ch = true
    · rw [if_pos hel]
      exact ih (mem_insertNatSet.mpr (Or.inl hx))
    · rw [if_neg hel]
      exact ih hx

theorem rawHeightsRFR_mem (ch : Int) (l : List RandomnessFulfillmentRequestedLog)
    {s : List Nat} {r : RandomnessFulfillmentRequestedLog} (hr : r ∈ l)
    (hel : isBlockEligible r.nextBeaconOutputHeight r.confDelay ch = true) :
    r.nextBeaconOutputHeight ∈ rawHeightsRFR ch l s := by
  induction l generalizing s with
  | nil => cases hr
  | cons l0 rest ih =>
    unfold rawHeightsRFR
    rcases List.mem_cons.mp hr with rfl | hmem
    · rw [if_pos hel]
      exact rawHeightsRFR_mono ch rest (mem_insertNatSet.mpr (Or.inr rfl))
    · by_cases hel0 : isBlockEligible l0.nextBeaconOutputHeight l0.confDelay ch = true
      · rw [if_pos hel0]
        exact ih hmem
      · rw [if_neg hel0]
        exact ih hmem

/-- Every height of an eligible randomness or fulfillment request log is in
the list of heights for which blockhashes are requested. -/
theorem mem_rawRequestedHeights (rrs : List RandomnessRequestedLog)
    (rfrs : List RandomnessFulfillmentRequestedLog) (ch : Int) (n : Nat)
    (hn : (∃ r ∈ rrs, n = r.nextBeaconOutputHeight ∧
            isBlockEligible r.nextBeaconOutputHeight r.confDelay ch = true) ∨
          (∃ r ∈ rfrs, n = r.nextBeaconOutputHeight ∧
            isBlockEligible r.nextBeaconOutputHeight r.confDelay ch = true)) :
    n ∈ rawRequestedHeights rrs rfrs ch := by
  unfold rawRequestedHeights
  rcases hn with ⟨r, hr, rfl, hel⟩ | ⟨r, hr, rfl, hel⟩
  · exact rawHeightsRFR_mono ch rfrs (rawHeightsRR_mem ch rrs hr hel)
  · exact rawHeightsRFR_mem ch rfrs hr hel

/-- If some head was fetched for height `k`, the mapping lookup at `k`
returns the hash of one of the fetched heads for `k` (the most recent
write). -/
theorem mapLookup_mkBlockhashesMapping (heads : List Head) (k : Nat)
    (hk : ∃ hd ∈ heads, toUint64 hd.blockNumber = k) :
    ∃ hd ∈ heads, toUint64 hd.blockNumber = k ∧
      mapLookup (mkBlockhashesMapping heads) k = hd.blockHash := by
  induction heads using List.reverseRecOn with
  | nil => simp at hk
  | append_singleton hs hd ih =>
    have hmk : mkBlockhashesMapping (hs ++ [hd]) =
        mapInsert (mkBlockhashesMapping hs) (toUint64 hd.blockNumber) hd.blockHash := by
      unfold mkBlockhashesMapping
      rw [List.foldl_append]
      rfl
    by_cases hkey : toUint64 hd.blockNumber = k
    · refine ⟨hd, List.mem_append_right _ (List.mem_singleton_self hd), hkey, ?_⟩
      rw [hmk, mapInsert]
      unfold mapLookup
      rw [List.find?]
      simp [hkey]
    · obtain ⟨hd2, hmem2, hk2⟩ : ∃ hd2 ∈ hs, toUint64 hd2.blockNumber = k := by
        obtain ⟨hd3, hmem3, hk3⟩ := hk
        rcases List.mem_append.mp hmem3 with h3 | h3
        · exact ⟨hd3, h3, hk3⟩
        · rw [List.mem_singleton.mp h3] at hk3
          exact absurd hk3 hkey
      obtain ⟨hd4, hmem4, hk4, hlook⟩ := ih ⟨hd2, hmem2, hk2⟩
      refine ⟨hd4, List.mem_append_left _ hmem4, hk4, ?_⟩
      rw [hmk, mapInsert]
      unfold mapLookup at hlook ⊢
      rw [List.find?]
      have hfalse : decide ((toUint64 hd.blockNumber, hd.blockHash).1 = k) = false := by
        simp [hkey]
      rw [hfalse]
      exact hlook

/-- C10: every block in a successful `ReportBlocks` result has a height that
was part of the blockhash request (built from all eligible request heights,
a superset of everything surviving the filters), and — when `GetBlocks`
honours its contract of returning a head per requested height — its hash is
the fetched hash for that height, never the zero placeholder for a missing
key. -/
theorem reportBlocks_blocks_have_fetched_hashes (st : CoordinatorState) (ds : List Nat)
    (t : Topics) (lb : Except Unit Int) (lgsE : Except Unit (List Log))
    (getBlocks : List Nat → List Head) (blocks : List Block)
    (cbs : List AbstractCostedCallbackRequest) (ch : Int) (lgs : List Log)
    (hok : ReportBlocks st ds t lb lgsE getBlocks = .ok (blocks, cbs))
    (hlb : lb = .ok ch) (hlgs : lgsE = .ok lgs)
    (hGB : ∀ n ∈ rawRequestedHeights (unmarshalLogs t lgs).randomnessRequestedLogs
        (unmarshalLogs t lgs).randomnessFulfillmentRequestedLogs ch,
      ∃ hd ∈ getBlocks (rawRequestedHeights (unmarshalLogs t lgs).randomnessRequestedLogs
        (unmarshalLogs t lgs).randomnessFulfillmentRequestedLogs ch),
        toUint64 hd.blockNumber = n) :
    ∀ b ∈ blocks,
      b.height ∈ rawRequestedHeights (unmarshalLogs t lgs).randomnessRequestedLogs
        (unmarshalLogs t lgs).randomnessFulfillmentRequestedLogs ch ∧
      ∃ hd ∈ getBlocks (rawRequestedHeights (unmarshalLogs t lgs).randomnessRequestedLogs
          (unmarshalLogs t lgs).randomnessFulfillmentRequestedLogs ch),
        toUint64 hd.blockNumber = b.height ∧ b.hash = hd.blockHash := by
  subst hlb hlgs
  intro b hb
  rw [reportBlocks_ok_blocks st ds t getBlocks blocks cbs ch lgs hok] at hb
  obtain ⟨e, he, heq⟩ := List.mem_map.mp hb
  have hbh : b.height = e.blockNumber := by rw [← heq]
  have hbhash : b.hash = mapLookup
      (mkBlockhashesMapping (getBlocks
        (rawRequestedHeights (unmarshalLogs t lgs).randomnessRequestedLogs
          (unmarshalLogs t lgs).randomnessFulfillmentRequestedLogs ch)))
      e.blockNumber := by rw [← heq]
  obtain ⟨_, _, hsrc⟩ := mem_requestedBlockSet st ds ch (unmarshalLogs t lgs) e he
  have hmemR : e.blockNumber ∈ rawRequestedHeights
      (unmarshalLogs t lgs).randomnessRequestedLogs
      (unmarshalLogs t lgs).randomnessFulfillmentRequestedLogs ch := by
    apply mem_rawRequestedHeights
    rcases hsrc with ⟨r, hr, hnum, hel⟩ | ⟨r, hr, hnum, hel⟩
    · exact Or.inl ⟨r, hr, hnum, hel⟩
    · exact Or.inr ⟨r, hr, hnum, hel⟩
  refine ⟨hbh ▸ hmemR, ?_⟩
  obtain ⟨hd, hmem, hk, hlook⟩ := mapLookup_mkBlockhashesMapping _ e.blockNumber
    (hGB e.blockNumber hmemR)
  refine ⟨hd, hmem, ?_, ?_⟩
  · rw [hbh]
    exact hk
  · rw [hbhash, hlook]

/-- Witness for `reportBlocks_blocks_have_fetched_hashes`: one request at
height 90, delay 3, current height 100; `GetBlocks` returns hash 1090 for
height 90 and the returned block carries it. -/
theorem reportBlocks_blocks_have_fetched_hashes_witness :
    (ReportBlocks ⟨⟨4, []⟩, ⟨4, []⟩⟩ [3] ⟨1, 2, 3, 4⟩ (.ok 100)
        (.ok [⟨1, .ok (.randomnessRequested ⟨90, 3⟩)⟩])
        (fun ns => ns.map (fun n => Head.mk (Int.ofNat n) (n + 1000))) =
      .ok ([⟨1090, 90, 3⟩], [])) ∧
    ((Block.mk 1090 90 3).height ∈ rawRequestedHeights
        (unmarshalLogs ⟨1, 2, 3, 4⟩ [⟨1, .ok (.randomnessRequested ⟨90, 3⟩)⟩]).randomnessRequestedLogs
        (unmarshalLogs ⟨1, 2, 3, 4⟩ [⟨1, .ok (.randomnessRequested ⟨90, 3⟩)⟩]).randomnessFulfillmentRequestedLogs
        100 ∧
      ∃ hd ∈ (fun ns => ns.map (fun n => Head.mk (Int.ofNat n) (n + 1000)))
          (rawRequestedHeights
            (unmarshalLogs ⟨1, 2, 3, 4⟩ [⟨1, .ok (.randomnessRequested ⟨90, 3⟩)⟩]).randomnessRequestedLogs
            (unmarshalLogs ⟨1, 2, 3, 4⟩ [⟨1, .ok (.randomnessRequested ⟨90, 3⟩)⟩]).randomnessFulfillmentRequestedLogs
            100),
        toUint64 hd.blockNumber = (Block.mk 1090 90 3).height ∧
          (Block.mk 1090 90 3).hash = hd.blockHash) :=
  ⟨by decide,
   reportBlocks_blocks_have_fetched_hashes ⟨⟨4, []⟩, ⟨4, []⟩⟩ [3] ⟨1, 2, 3, 4⟩
     (.ok 100) (.ok [⟨1, .ok (.randomnessRequested ⟨90, 3⟩)⟩])
     (fun ns => ns.map (fun n => Head.mk (Int.ofNat n) (n + 1000)))
     [⟨1090, 90, 3⟩] [] 100 [⟨1, .ok (.randomnessRequested ⟨90, 3⟩)⟩]
     (by decide) rfl rfl (by decide)
     ⟨1090, 90, 3⟩ (by decide)⟩

/-! ### C8: DKGVRFCommittees -/

/-- A decoded `ConfigSet` log: the signer and transmitter address arrays. -/
structure ConfigSetLog where
  signers : List Nat
  transmitters : List Nat
deriving DecidableEq, Repr

/-- `ocr2vrftypes.OCRCommittee`. -/
structure OCRCommittee where
  signers : List Nat
  transmitters : List Nat
deriving DecidableEq, Repr

/-- The pairing loop `for i := range Signers` of `DKGVRFCommittees`, which
reads `Signers[i]` and `Transmitters[i]` for every signer index: the loop
consumes both arrays positionally, and exhausting the transmitters before
the signers is the out-of-range access `Transmitters[i]` (a runtime panic in
Go), modelled as `none`. -/
def buildCommitteeLists : List Nat → List Nat → Option (List Nat × List Nat)
  | [], _ => some ([], [])
  | _ :: _, [] => none
  | s :: ss, t :: ts =>
    match buildCommitteeLists ss ts with
    | none => none
    | some p => some (s :: p.1, t :: p.2)

/-- One committee from one decoded `ConfigSet` log. -/
def buildCommittee (cs : ConfigSetLog) : Option OCRCommittee :=
  match buildCommitteeLists cs.signers cs.transmitters with
  | none => none
  | some p => some ⟨p.1, p.2⟩

/-- `DKGVRFCommittees` from coordinator.go, with the two decoded `ConfigSet`
logs (fetched and ABI-decoded through external collaborators) passed in; the
VRF pairing loop runs first, then the DKG one, and the result is
`(dkgCommittee, vrfCommittee)`. -/
def DKGVRFCommittees (vrfConfigSetLog dkgConfigSetLog : ConfigSetLog) :
    Option (OCRCommittee × OCRCommittee) :=
  match buildCommittee vrfConfigSetLog with
  | none => none
  | some vrfCommittee =>
    match buildCommittee dkgConfigSetLog with
    | none => none
    | some dkgCommittee => some (dkgCommittee, vrfCommittee)

/-- C8 counterexample: with one signer and no transmitters the pairing loop
performs the out-of-range access `Transmitters[0]`; it does not stop at the
shorter bound, refuting the claimed bounds safety for unequal lengths. -/
theorem dkgVrfCommittees_oob_counterexample :
    DKGVRFCommittees ⟨[5], []⟩ ⟨[], []⟩ = none ∧
      DKGVRFCommittees ⟨[5], []⟩ ⟨[], []⟩ ≠ some (⟨[], []⟩, ⟨[], []⟩) := by
  constructor
  · decide
  · decide

theorem buildCommitteeLists_of_le (signers : List Nat) (transmitters : List Nat)
    (h : signers.length ≤ transmitters.length) :
    buildCommitteeLists signers transmitters =
      some (signers, transmitters.take signers.length) := by
  induction signers generalizing transmitters with
  | nil => rfl
  | cons s ss ih =>
    cases transmitters with
    | nil => simp at h
    | cons t ts =>
      unfold buildCommitteeLists
      rw [ih ts (Nat.le_of_succ_le_succ h)]
      simp [List.take]

/-- C8 (amended): `DKGVRFCommittees` performs no length validation and
iterates over all signer indices, pairing `signers[i]` with
`transmitters[i]`; whenever each log's transmitter array is at least as long
as its signer array, it returns the positionally paired committees — but
when a transmitter array is shorter, the access is out of bounds (see the
counterexample), so the caller must guarantee equal lengths. -/
theorem dkgVrfCommittees_pairs_when_long_enough (v d : ConfigSetLog)
    (hv : v.signers.length ≤ v.transmitters.length)
    (hd : d.signers.length ≤ d.transmitters.length) :
    DKGVRFCommittees v d =
      some (⟨d.signers, d.transmitters.take d.signers.length⟩,
            ⟨v.signers, v.transmitters.take v.signers.length⟩) := by
  unfold DKGVRFCommittees buildCommittee
  rw [buildCommitteeLists_of_le v.signers v.transmitters hv,
    buildCommitteeLists_of_le d.signers d.transmitters hd]

/-- Witness for `dkgVrfCommittees_pairs_when_long_enough` with unequal but
safe lengths. -/
theorem dkgVrfCommittees_pairs_witness :
    ((2 : Nat) ≤ 3 ∧ (1 : Nat) ≤ 1) ∧
      DKGVRFCommittees ⟨[10, 11], [20, 21, 22]⟩ ⟨[30], [40]⟩ =
        some (⟨[30], [40]⟩, ⟨[10, 11], [20, 21]⟩) :=
  ⟨⟨by norm_num, le_refl 1⟩,
   dkgVrfCommittees_pairs_when_long_enough ⟨[10, 11], [20, 21, 22]⟩ ⟨[30], [40]⟩
     (by norm_num) (by norm_num)⟩

end Coord
